import Mathlib

set_option autoImplicit false

/-!
Shallow embedding of the toy-language pipeline from `toy-lang/src/main.rs`:
a lexer (`Lexer.tokenize`), a recursive-descent parser (`Parser.parse`) and
a tree-walking interpreter (`Interpreter.runTrace`), together with theorems
settling the spec claims about them.

Conventions used throughout the embedding:
* the Rust mutable cursors become explicit state passing: the lexer state is
  the list of characters not yet consumed plus the absolute index of the
  next character (the Rust `Lexer` keeps the whole `Vec<char>` plus an
  index `i`; only the suffix from `i` on and the value of `i` are ever
  observable, which is exactly what we carry).
* Loops whose termination is by cursor progress (the token loop in
  `tokenize`, the statement loop in `parse`, the argument loop in
  `parse_print`) take an explicit fuel argument that the caller sets to
  one more than the length of the underlying buffer, which dominates the
  number of iterations the Rust loop can make; the fuel-exhausted branch
  is unreachable for those calls.
* the Rust Unicode character predicates `char::is_whitespace`,
  `char::is_alphabetic` and `char::is_alphanumeric` are modelled by the Lean
  `Char.isWhitespace`, `Char.isAlpha` and `Char.isAlphanum`; they agree on
  the ASCII fragment, which covers every concrete program considered here.
* `HashMap<String, String>` is modelled as an association list consulted
  front-to-back: `insert` conses a binding in front, so lookups observe
  exactly the replace-on-insert behaviour of the hash map.
-/

/-- The token vocabulary, from `enum Token` in `main.rs`. -/
inductive Token where
  | Let
  | Print
  | LParen
  | RParen
  | LBrace
  | RBrace
  | Comma
  | Semicolon
  | Equal
  | Ident (name : String)
  | Str (lit : String)
  | Eof
deriving DecidableEq

/-- A single-quote character, used to build error strings verbatim. -/
def tick : String := String.singleton (Char.ofNat 39)

/-- One character of Rust `{:?}` (Debug) formatting for the fragment of
strings this program manipulates: the four escapes the toy language itself
knows are rendered escaped, everything else verbatim. -/
def escapeDebugChar (c : Char) : String :=
  if c == '\n' then "\\n"
  else if c == '\t' then "\\t"
  else if c == '\\' then "\\\\"
  else if c == '"' then "\\\""
  else String.singleton c

/-- Rust `{:?}` rendering of a string: quoted, with escapes. -/
def debugString (s : String) : String :=
  "\"" ++ String.join (s.data.map escapeDebugChar) ++ "\""

/-- Rust `{:?}` rendering of a `Token`. -/
def debugToken : Token → String
  | Token.Let => "Let"
  | Token.Print => "Print"
  | Token.LParen => "LParen"
  | Token.RParen => "RParen"
  | Token.LBrace => "LBrace"
  | Token.RBrace => "RBrace"
  | Token.Comma => "Comma"
  | Token.Semicolon => "Semicolon"
  | Token.Equal => "Equal"
  | Token.Ident s => "Ident(" ++ debugString s ++ ")"
  | Token.Str s => "Str(" ++ debugString s ++ ")"
  | Token.Eof => "Eof"

/-- Model of `Lexer::skip_ws`: advance the cursor past whitespace.  The pair is the
remaining characters and the absolute index of the next one. -/
def Lexer.skip_ws (cs : List Char) (pos : Nat) : List Char × Nat :=
  match cs with
  | [] => ([], pos)
  | c :: rest => if c.isWhitespace then Lexer.skip_ws rest (pos + 1) else (c :: rest, pos)

/-- Model of `Lexer::string`: scan a string literal body (the opening quote is
already consumed), resolving the four escapes and failing on any other
escape or on end of input; `out` is the accumulator `out` of the Rust
code. -/
def Lexer.string (cs : List Char) (pos : Nat) (out : String) : Except String (String × List Char × Nat) :=
  match cs with
  | [] => Except.error ("Unterminated string")
  | '"' :: rest => Except.ok (out, rest, pos + 1)
  | '\\' :: rest =>
    match rest with
    | [] => Except.error ("Unfinished escape in string")
    | 'n' :: rest => Lexer.string rest (pos + 2) (out.push '\n')
    | 't' :: rest => Lexer.string rest (pos + 2) (out.push '\t')
    | '"' :: rest => Lexer.string rest (pos + 2) (out.push '"')
    | '\\' :: rest => Lexer.string rest (pos + 2) (out.push '\\')
    | esc :: _ => Except.error ("Unsupported escape: \\" ++ String.singleton esc)
  | c :: rest => Lexer.string rest (pos + 1) (out.push c)

/-- The accumulation loop of `Lexer::ident_or_kw`: extend the identifier
while the next character is alphanumeric or an underscore. -/
def Lexer.identLoop (cs : List Char) (pos : Nat) (acc : String) : String × List Char × Nat :=
  match cs with
  | [] => (acc, [], pos)
  | c :: rest =>
    if c.isAlphanum || c == '_' then Lexer.identLoop rest (pos + 1) (acc.push c)
    else (acc, c :: rest, pos)

/-- Model of `Lexer::ident_or_kw`: the first character is already consumed. -/
def Lexer.ident_or_kw (first : Char) (cs : List Char) (pos : Nat) : String × List Char × Nat :=
  Lexer.identLoop cs pos (String.singleton first)

/-- Model of `Lexer::next_token`: skip whitespace, then classify one token.  Returns
the token together with the remaining characters and cursor index. -/
def Lexer.next_token (cs : List Char) (pos : Nat) : Except String (Token × List Char × Nat) :=
  match Lexer.skip_ws cs pos with
  | ([], pos) => Except.ok (Token.Eof, [], pos)
  | (c :: rest, pos) =>
    match c with
    | '(' => Except.ok (Token.LParen, rest, pos + 1)
    | ')' => Except.ok (Token.RParen, rest, pos + 1)
    | '\x7b' => Except.ok (Token.LBrace, rest, pos + 1)
    | '\x7d' => Except.ok (Token.RBrace, rest, pos + 1)
    | ',' => Except.ok (Token.Comma, rest, pos + 1)
    | ';' => Except.ok (Token.Semicolon, rest, pos + 1)
    | '=' => Except.ok (Token.Equal, rest, pos + 1)
    | '"' =>
      match Lexer.string rest (pos + 1) "" with
      | Except.error e => Except.error e
      | Except.ok (s, cs, pos) => Except.ok (Token.Str s, cs, pos)
    | c =>
      if c.isAlpha || c == '_' then
        let r := Lexer.ident_or_kw c rest (pos + 1)
        let s := r.1
        Except.ok
          (if s == "let" then Token.Let
           else if s == "print" then Token.Print
           else Token.Ident s, r.2.1, r.2.2)
      else
        Except.error ("Unexpected char: " ++ tick ++ String.singleton c ++ tick ++ " at " ++ toString pos)

/-- The token loop of `Lexer::tokenize`: push each token, stopping right
after pushing `Eof`.  The fuel dominates the iteration count (each
iteration that continues consumes at least one character). -/
def Lexer.tokenizeAux (fuel : Nat) (cs : List Char) (pos : Nat) (acc : List Token) : Except String (List Token) :=
  match fuel with
  | 0 => Except.error ("lexer fuel exhausted")
  | fuel + 1 =>
    match Lexer.next_token cs pos with
    | Except.error e => Except.error e
    | Except.ok (t, cs, pos) =>
      if t == Token.Eof then Except.ok (acc ++ [t])
      else Lexer.tokenizeAux fuel cs pos (acc ++ [t])

/-- Model of `Lexer::tokenize`, on a whole source string. -/
def Lexer.tokenize (s : String) : Except String (List Token) :=
  Lexer.tokenizeAux (s.length + 1) s.data 0 []

/-- The statement vocabulary, from `enum Stmt` in `main.rs`. -/
inductive Stmt where
  | Let (name : String) (value : String)
  | Print (format : String) (args : List String)
deriving DecidableEq

/-- Model of `struct Program`: the ordered statement sequence. -/
structure Program where
  body : List Stmt
deriving DecidableEq

/-- Model of `struct Parser`: the owned token buffer and the cursor index. -/
structure Parser where
  ts : List Token
  i : Nat
deriving DecidableEq

/-- Model of `Parser::peek`: the token under the cursor, or `Eof` out of bounds. -/
def Parser.peek (p : Parser) : Token :=
  (p.ts.get? p.i).getD Token.Eof

/-- Model of `Parser::bump`: return the peeked token and advance the cursor. -/
def Parser.bump (p : Parser) : Token × Parser :=
  (p.peek, Parser.mk p.ts (p.i + 1))

/-- Model of `Parser::expect`: bump one token and compare it to the expected one. -/
def Parser.expect (p : Parser) (expected : Token) : Except String Parser :=
  let r := p.bump
  if r.1 == expected then Except.ok r.2
  else Except.error ("Expected " ++ debugToken expected ++ ", found " ++ debugToken r.1)

/-- Model of `Parser::parse_let`: `let IDENT = STRING ;`. -/
def Parser.parse_let (p : Parser) : Except String (Stmt × Parser) :=
  match p.expect Token.Let with
  | Except.error e => Except.error e
  | Except.ok p =>
    match p.bump with
    | (Token.Ident s, p) =>
      match p.expect Token.Equal with
      | Except.error e => Except.error e
      | Except.ok p =>
        match p.bump with
        | (Token.Str v, p) =>
          match p.expect Token.Semicolon with
          | Except.error e => Except.error e
          | Except.ok p => Except.ok (Stmt.Let s v, p)
        | (t, _) =>
          Except.error ("Expected string literal after " ++ tick ++ "=" ++ tick ++ ", got " ++ debugToken t)
    | (t, _) => Except.error ("Expected identifier after let, got " ++ debugToken t)

/-- The argument loop of `Parser::parse_print`: while the next token is a
comma, consume it and a required identifier.  The fuel dominates the
iteration count (each iteration consumes two tokens). -/
def Parser.print_args (fuel : Nat) (p : Parser) (acc : List String) : Except String (List String × Parser) :=
  match fuel with
  | 0 => Except.error ("parser fuel exhausted")
  | fuel + 1 =>
    if p.peek == Token.Comma then
      match p.expect Token.Comma with
      | Except.error e => Except.error e
      | Except.ok p =>
        match p.bump with
        | (Token.Ident s, p) => Parser.print_args fuel p (acc ++ [s])
        | (t, _) => Except.error ("Expected identifier as print arg, got " ++ debugToken t)
    else Except.ok (acc, p)

/-- Model of `Parser::parse_print`: `print ( STRING (, IDENT)* ) ;`. -/
def Parser.parse_print (p : Parser) : Except String (Stmt × Parser) :=
  match p.expect Token.Print with
  | Except.error e => Except.error e
  | Except.ok p =>
  match p.expect Token.LParen with
  | Except.error e => Except.error e
  | Except.ok p =>
  match p.bump with
  | (Token.Str f, p) =>
    match Parser.print_args (p.ts.length + 1) p [] with
    | Except.error e => Except.error e
    | Except.ok (args, p) =>
      match p.expect Token.RParen with
      | Except.error e => Except.error e
      | Except.ok p =>
      match p.expect Token.Semicolon with
      | Except.error e => Except.error e
      | Except.ok p => Except.ok (Stmt.Print f args, p)
  | (t, _) => Except.error ("Expected string literal in print(...), got " ++ debugToken t)

/-- Model of `Parser::parse_stmt`: dispatch on the peeked token. -/
def Parser.parse_stmt (p : Parser) : Except String (Stmt × Parser) :=
  match p.peek with
  | Token.Let => p.parse_let
  | Token.Print => p.parse_print
  | other => Except.error ("Unexpected token in statement: " ++ debugToken other)

/-- The statement loop of `Parser::parse`: parse statements until the next
token is `RBrace` or `Eof`.  The fuel dominates the iteration count (each
successful statement advances the cursor). -/
def Parser.parseAux (fuel : Nat) (p : Parser) (acc : List Stmt) : Except String (Program × Parser) :=
  match fuel with
  | 0 => Except.error ("parser fuel exhausted")
  | fuel + 1 =>
    if p.peek == Token.RBrace || p.peek == Token.Eof then Except.ok (Program.mk acc, p)
    else
      match p.parse_stmt with
      | Except.error e => Except.error e
      | Except.ok (s, p) => Parser.parseAux fuel p (acc ++ [s])

/-- Model of `Parser::parse`, also exposing the final parser state. -/
def Parser.parse (p : Parser) : Except String (Program × Parser) :=
  Parser.parseAux (p.ts.length + 1) p []

/-- The interpreter environment: `HashMap<String, String>` observed through
`get`/`insert`, as an association list consulted front-to-back. -/
abbrev Env : Type := List (String × String)

/-- Model of `self.env.get(name)`: first binding for `name` wins. -/
def envGet (env : Env) (name : String) : Option String :=
  (env.find? (fun b => b.1 == name)).map (fun b => b.2)

/-- Model of `self.env.insert(name, value)`: the new binding shadows any older one,
which is exactly the observable effect of `HashMap::insert`. -/
def envInsert (name value : String) (env : Env) : Env :=
  (name, value) :: env

/-- The runtime error message for a marker with no argument left. -/
def msgMissing : String := "print: missing arguments for placeholders"

/-- The runtime error message for leftover arguments after the last marker. -/
def msgTooMany : String := "print: too many arguments for placeholders"

/-- The runtime error message for an unbound argument name. -/
def msgUndef (name : String) : String := "Undefined variable: " ++ name

/-- The scanning loop of `Interpreter::exec_print`: find each occurrence of
the two-character marker left to right (Rust uses `fmt.find` plus slicing;
scanning character by character finds the same leftmost occurrences),
substitute the next argument value, and after the last marker fail if
arguments remain.  `out` is the local output buffer of the Rust code. -/
def Interpreter.exec_printAux (env : Env) (fmt : List Char) (args : List String) (out : String) : Except String String :=
  match fmt with
  | '\x7b' :: '\x7d' :: rest =>
    match args with
    | [] => Except.error msgMissing
    | name :: args =>
      match envGet env name with
      | none => Except.error (msgUndef name)
      | some val => Interpreter.exec_printAux env rest args (out ++ val)
  | c :: rest => Interpreter.exec_printAux env rest args (out.push c)
  | [] =>
    match args with
    | [] => Except.ok out
    | _ :: _ => Except.error msgTooMany

/-- Model of `Interpreter::exec_print`: on success the fully assembled line (the one
`println!` emits), on failure the runtime error. -/
def Interpreter.exec_print (env : Env) (format : String) (args : List String) : Except String String :=
  Interpreter.exec_printAux env format.data args ""

/-- The number of non-overlapping placeholder markers in a format string,
counted left to right exactly as the `exec_print` scan visits them. -/
def countMarkers : List Char → Nat
  | '\x7b' :: '\x7d' :: rest => countMarkers rest + 1
  | _ :: rest => countMarkers rest
  | [] => 0

/-- Model of `Interpreter::run`, instrumented with the observable trace: the list of
lines printed (in order), the error that stopped the run if any, and the
final environment.  Execution processes statements in order and stops at
the first failing statement. -/
def Interpreter.runTrace (env : Env) (stmts : List Stmt) : List String × Option String × Env :=
  match stmts with
  | [] => ([], none, env)
  | Stmt.Let name value :: rest => Interpreter.runTrace (envInsert name value env) rest
  | Stmt.Print f args :: rest =>
    match Interpreter.exec_print env f args with
    | Except.error e => ([], some e, env)
    | Except.ok line =>
      let r := Interpreter.runTrace env rest
      (line :: r.1, r.2)

/-- Model of `fn main` minus the collaborators the spec leaves outside the core
(argument parsing, file reading, the `Tokens:`/`Program:` diagnostic
dumps): run the pipeline on source text, producing the interpreter
output lines on success or the first error wrapped with its stage label. -/
def mainRun (code : String) : Except String (List String) :=
  match Lexer.tokenize code with
  | Except.error e => Except.error ("Lex error: " ++ e)
  | Except.ok tokens =>
    match Parser.parse (Parser.mk tokens 0) with
    | Except.error e => Except.error ("Parse error: " ++ e)
    | Except.ok (program, _) =>
      match Interpreter.runTrace [] program.body with
      | (_, some e, _) => Except.error ("Runtime error: " ++ e)
      | (outs, none, _) => Except.ok outs

/-- The token list a comma-separated print argument list lexes to:
`, IDENT` pairs in appearance order. -/
def argToks : List String → List Token
  | [] => []
  | a :: as => Token.Comma :: Token.Ident a :: argToks as

/-- The specified end-to-end example program. -/
def srcC4 : String := "let name = \"Bob\"; print(\"Hello, \x7b\x7d!\", name);"

/-- The line the end-to-end example emits. -/
def outC4 : String := "Hello, Bob!"

/-- The specified escape example: a literal backslash-n inside the quoted
string literal. -/
def srcC6 : String := "let x = \"a\\nb\";"

/-- The identifier of the escape example. -/
def xStr : String := "x"

/-- The escape example resolved value: an actual newline between a and b. -/
def anb : String := "a\nb"

/-- The token sequence the escape example lexes to. -/
def tsC6 : List Token :=
  [Token.Let, Token.Ident xStr, Token.Equal, Token.Str anb, Token.Semicolon, Token.Eof]

/-- The specified zero-argument print example. -/
def srcC8 : String := "print(\"hi\");"

/-- Its format string. -/
def hiStr : String := "hi"

/-- The token sequence the zero-argument print example lexes to. -/
def tsC8 : List Token :=
  [Token.Print, Token.LParen, Token.Str hiStr, Token.RParen, Token.Semicolon, Token.Eof]

/-- A source text that is just a closing brace. -/
def srcRBrace : String := "\x7d"

/-- A format string that is exactly one placeholder marker. -/
def fmtMarker : String := "\x7b\x7d"

/-- A format string with two placeholder markers. -/
def fmtTwoMarkers : String := "\x7b\x7d\x7b\x7d"

/-- The empty format string. -/
def emptyStr : String := ""

/-- A variable name used in concrete runs. -/
def nameA : String := "a"

/-- A value used in concrete runs. -/
def valOne : String := "1"

/-- A one-binding environment. -/
def envA : Env := [(nameA, valOne)]

/-- The error string the spec claims for a marker with no argument left. -/
def claimedMissing : String := "missing arguments for placeholders"

/-- The error string the spec claims for leftover arguments. -/
def claimedTooMany : String := "too many arguments for placeholders"

/-- A source text whose string literal is never closed. -/
def srcLexErr : String := "let x = \"abc"

/-- The lex error it produces. -/
def lexErrMsg : String := "Unterminated string"

/-- A source text missing its terminating semicolon. -/
def srcParseErr : String := "let x = \"abc\""

/-- The string literal of the two sources above. -/
def abcStr : String := "abc"

/-- The token sequence of the missing-semicolon source. -/
def tsParseErr : List Token :=
  [Token.Let, Token.Ident xStr, Token.Equal, Token.Str abcStr, Token.Eof]

/-- The parse error the missing-semicolon source produces. -/
def parseErrMsg : String := "Expected Semicolon, found Eof"

/-- A source text whose print argument was never bound. -/
def srcRunErr : String := "print(\"\x7b\x7d\", missing);"

/-- The unbound argument name of that source. -/
def missingStr : String := "missing"

/-- The token sequence of the unbound-argument source. -/
def tsRunErr : List Token :=
  [Token.Print, Token.LParen, Token.Str fmtMarker, Token.Comma,
   Token.Ident missingStr, Token.RParen, Token.Semicolon, Token.Eof]

/-- The program the unbound-argument source parses to. -/
def progRunErr : Program := Program.mk [Stmt.Print fmtMarker [missingStr]]

/-- A format string with text before its single marker. -/
def fmtPrefixed : String := "pre \x7b\x7d"

/-- The lex error for end of input directly after a backslash. -/
def escErrMsg : String := "Unfinished escape in string"

/-! ## Helper lemmas about the `exec_print` scanning loop -/

lemma countMarkers_cons_ne (c : Char) (rest : List Char)
    (h : ∀ r1, c = '\x7b' → rest = '\x7d' :: r1 → False) :
    countMarkers (c :: rest) = countMarkers rest := by
  simp [countMarkers, h]

lemma exec_printAux_ok_iff (env : Env) :
    ∀ (fmt : List Char) (args : List String) (out : String),
      (∃ s, Interpreter.exec_printAux env fmt args out = Except.ok s) ↔
        (countMarkers fmt = args.length ∧ ∀ a ∈ args, (envGet env a).isSome) := by
  intro fmt args out
  induction fmt, args, out using Interpreter.exec_printAux.induct env with
  | case1 out rest =>
    simp [Interpreter.exec_printAux, countMarkers]
  | case2 out rest name args h =>
    simp [Interpreter.exec_printAux, countMarkers, h]
  | case3 out rest name args val h ih =>
    simp [Interpreter.exec_printAux, countMarkers, h, ih]
  | case4 args out c rest h ih =>
    rw [countMarkers_cons_ne c rest h] at *
    rw [show Interpreter.exec_printAux env (c :: rest) args out
          = Interpreter.exec_printAux env rest args (out.push c) from by
        simp [Interpreter.exec_printAux, h]]
    exact ih
  | case5 out => simp [Interpreter.exec_printAux, countMarkers]
  | case6 out name args => simp [Interpreter.exec_printAux, countMarkers]

lemma exec_printAux_missing (env : Env) :
    ∀ (fmt : List Char) (args : List String) (out : String),
      args.length < countMarkers fmt → (∀ a ∈ args, (envGet env a).isSome) →
        Interpreter.exec_printAux env fmt args out = Except.error msgMissing := by
  intro fmt args out
  induction fmt, args, out using Interpreter.exec_printAux.induct env with
  | case1 out rest => intro _ _; simp [Interpreter.exec_printAux]
  | case2 out rest name args h =>
    intro _ hb
    have := hb name (by simp)
    simp [h] at this
  | case3 out rest name args val h ih =>
    intro hlt hb
    simp [countMarkers] at hlt
    simp [Interpreter.exec_printAux, h]
    exact ih (by omega) (fun a ha => hb a (by simp [ha]))
  | case4 args out c rest h ih =>
    intro hlt hb
    rw [countMarkers_cons_ne c rest h] at hlt
    rw [show Interpreter.exec_printAux env (c :: rest) args out
          = Interpreter.exec_printAux env rest args (out.push c) from by
        simp [Interpreter.exec_printAux, h]]
    exact ih hlt hb
  | case5 out => intro hlt; simp [countMarkers] at hlt
  | case6 out name args => intro hlt _; simp [countMarkers] at hlt

lemma exec_printAux_undef (env : Env) :
    ∀ (fmt : List Char) (args : List String) (out : String),
      ∀ (pre : List String) (a : String) (post : List String),
        args = pre ++ a :: post → (∀ b ∈ pre, (envGet env b).isSome) →
        envGet env a = none → pre.length < countMarkers fmt →
        Interpreter.exec_printAux env fmt args out = Except.error (msgUndef a) := by
  intro fmt args out
  induction fmt, args, out using Interpreter.exec_printAux.induct env with
  | case1 out rest =>
    intro pre a post heq
    simp at heq
  | case2 out rest name args h =>
    intro pre a post heq hb ha _
    cases pre with
    | nil => simp at heq; simp [Interpreter.exec_printAux, heq.1, ha]
    | cons b pre =>
      simp at heq
      have := hb b (by simp)
      rw [heq.1] at h
      simp [h] at this
  | case3 out rest name args val h ih =>
    intro pre a post heq hb ha hlt
    cases pre with
    | nil =>
      simp at heq
      rw [heq.1] at h
      simp [h] at ha
    | cons b pre =>
      simp at heq
      simp [countMarkers] at hlt
      simp [Interpreter.exec_printAux, h]
      exact ih pre a post heq.2 (fun x hx => hb x (by simp [hx])) ha (by omega)
  | case4 args out c rest h ih =>
    intro pre a post heq hb ha hlt
    rw [countMarkers_cons_ne c rest h] at hlt
    rw [show Interpreter.exec_printAux env (c :: rest) args out
          = Interpreter.exec_printAux env rest args (out.push c) from by
        simp [Interpreter.exec_printAux, h]]
    exact ih pre a post heq hb ha hlt
  | case5 out =>
    intro pre a post heq
    simp at heq
  | case6 out name args =>
    intro pre a post heq hb ha hlt
    simp [countMarkers] at hlt

lemma exec_printAux_toomany (env : Env) :
    ∀ (fmt : List Char) (args : List String) (out : String),
      countMarkers fmt < args.length →
      (∀ a ∈ args.take (countMarkers fmt), (envGet env a).isSome) →
        Interpreter.exec_printAux env fmt args out = Except.error msgTooMany := by
  intro fmt args out
  induction fmt, args, out using Interpreter.exec_printAux.induct env with
  | case1 out rest =>
    intro hlt _
    simp at hlt
  | case2 out rest name args h =>
    intro hlt hb
    have := hb name (by simp [countMarkers])
    simp [h] at this
  | case3 out rest name args val h ih =>
    intro hlt hb
    simp [countMarkers] at hlt hb
    simp [Interpreter.exec_printAux, h]
    exact ih (by omega) (fun x hx => hb.2 x hx)
  | case4 args out c rest h ih =>
    intro hlt hb
    rw [countMarkers_cons_ne c rest h] at hlt hb
    rw [show Interpreter.exec_printAux env (c :: rest) args out
          = Interpreter.exec_printAux env rest args (out.push c) from by
        simp [Interpreter.exec_printAux, h]]
    exact ih hlt hb
  | case5 out =>
    intro hlt
    simp [countMarkers] at hlt
  | case6 out name args =>
    intro _ _
    simp [Interpreter.exec_printAux]

/-- Claim C1, counterexample to the error strings as stated: at the concrete
Print statement with format `\x7b\x7d` and no arguments the interpreter
fails, but with the string `print: missing arguments for placeholders`, not
the claimed `missing arguments for placeholders`; likewise the leftover-
argument error carries a `print: ` prefix. -/
theorem exec_print_error_string_counterexample :
    Interpreter.exec_print [] fmtMarker [] = Except.error msgMissing ∧
    Interpreter.exec_print envA emptyStr [nameA] = Except.error msgTooMany ∧
    msgMissing ≠ claimedMissing ∧ msgTooMany ≠ claimedTooMany := by
  refine ⟨rfl, rfl, ?_, ?_⟩ <;> decide

/-- Claim C1 (amended: the missing-argument and leftover-argument error
strings carry the `print: ` prefix the code actually uses).  Scanning the
format left to right for non-overlapping `\x7b\x7d` markers: execution
succeeds exactly when the marker count equals the argument count and every
argument is bound; it fails with `print: missing arguments for
placeholders` when the (all-bound) arguments are outnumbered by markers,
with `Undefined variable: <name>` when the first unbound argument is
reached while markers remain for it, and with `print: too many arguments
for placeholders` when arguments remain after the last marker. -/
theorem exec_print_taxonomy :
    ∀ (env : Env) (format : String) (args : List String),
      ((∃ s, Interpreter.exec_print env format args = Except.ok s) ↔
        (countMarkers format.data = args.length ∧ ∀ a ∈ args, (envGet env a).isSome)) ∧
      (args.length < countMarkers format.data → (∀ a ∈ args, (envGet env a).isSome) →
        Interpreter.exec_print env format args = Except.error msgMissing) ∧
      (∀ pre a post, args = pre ++ a :: post → (∀ b ∈ pre, (envGet env b).isSome) →
        envGet env a = none → pre.length < countMarkers format.data →
        Interpreter.exec_print env format args = Except.error (msgUndef a)) ∧
      (countMarkers format.data < args.length →
        (∀ a ∈ args.take (countMarkers format.data), (envGet env a).isSome) →
        Interpreter.exec_print env format args = Except.error msgTooMany) := by
  intro env format args
  exact ⟨exec_printAux_ok_iff env format.data args emptyStr,
    exec_printAux_missing env format.data args emptyStr,
    fun pre a post h1 h2 h3 h4 =>
      exec_printAux_undef env format.data args emptyStr pre a post h1 h2 h3 h4,
    exec_printAux_toomany env format.data args emptyStr⟩

/-- Concrete instantiations of the error taxonomy: two markers and one
bound argument give the missing-argument error; an unbound argument under
a marker gives the undefined-variable error; a bound argument with no
marker gives the too-many error; one marker and one bound argument
succeed. -/
theorem exec_print_taxonomy_witness :
    Interpreter.exec_print envA fmtTwoMarkers [nameA] = Except.error msgMissing ∧
    Interpreter.exec_print [] fmtMarker [nameA] = Except.error (msgUndef nameA) ∧
    Interpreter.exec_print envA emptyStr [nameA] = Except.error msgTooMany ∧
    (∃ s, Interpreter.exec_print envA fmtMarker [nameA] = Except.ok s) := by
  refine ⟨?_, ?_, ?_, ?_⟩
  · exact (exec_print_taxonomy envA fmtTwoMarkers [nameA]).2.1 (by decide) (by decide)
  · exact (exec_print_taxonomy [] fmtMarker [nameA]).2.2.1 [] nameA [] rfl (by simp) (by decide) (by decide)
  · exact (exec_print_taxonomy envA emptyStr [nameA]).2.2.2 (by decide) (by decide)
  · exact (exec_print_taxonomy envA fmtMarker [nameA]).1.mpr (by decide)

/-! ## Helper lemmas about the interpreter trace -/

lemma runTrace_append_ok (l1 : List Stmt) :
    ∀ (env : Env) (l2 : List Stmt) (outs : List String) (env' : Env),
      Interpreter.runTrace env l1 = (outs, none, env') →
      Interpreter.runTrace env (l1 ++ l2) =
        (outs ++ (Interpreter.runTrace env' l2).1, (Interpreter.runTrace env' l2).2) := by
  induction l1 with
  | nil =>
    intro env l2 outs env' h
    simp [Interpreter.runTrace] at h
    simp [h.1, h.2]
  | cons s rest ih =>
    intro env l2 outs env' h
    cases s with
    | Let n v =>
      simp [Interpreter.runTrace] at h ⊢
      exact ih (envInsert n v env) l2 outs env' h
    | Print f args =>
      cases hexec : Interpreter.exec_print env f args with
      | error e => simp [Interpreter.runTrace, hexec] at h
      | ok line =>
        rw [show Interpreter.runTrace env (Stmt.Print f args :: rest)
              = (line :: (Interpreter.runTrace env rest).1, (Interpreter.runTrace env rest).2) from by
            simp [Interpreter.runTrace, hexec]] at h
        have houts : outs = line :: (Interpreter.runTrace env rest).1 := by
          have := congrArg Prod.fst h
          simpa using this.symm
        have hr2 : (Interpreter.runTrace env rest).2 = (none, env') := by
          have := congrArg Prod.snd h
          simpa using this
        have hrest : Interpreter.runTrace env rest
            = ((Interpreter.runTrace env rest).1, none, env') := by
          rw [← hr2]
        have hih := ih env l2 (Interpreter.runTrace env rest).1 env' hrest
        simp [Interpreter.runTrace, hexec, hih, houts]

/-- Claim C3: every stage fails fast.  A lex error surfaces as `Lex error:`
plus the lexer message, a parse error as `Parse error: ` plus the
parser message, a runtime error as `Runtime error: ` plus the
interpreter message, each unchanged; and the interpreter stops at the
first failing statement: whatever follows it is never executed, and the
run trace is exactly the successful prefix lines followed by that
statement error. -/
theorem pipeline_fail_fast :
    (∀ code e, Lexer.tokenize code = Except.error e →
      mainRun code = Except.error ("Lex error: " ++ e)) ∧
    (∀ code ts e, Lexer.tokenize code = Except.ok ts →
      Parser.parse (Parser.mk ts 0) = Except.error e →
      mainRun code = Except.error ("Parse error: " ++ e)) ∧
    (∀ code ts prog q outs e envF, Lexer.tokenize code = Except.ok ts →
      Parser.parse (Parser.mk ts 0) = Except.ok (prog, q) →
      Interpreter.runTrace [] prog.body = (outs, some e, envF) →
      mainRun code = Except.error ("Runtime error: " ++ e)) ∧
    (∀ env pre post f args outs env' e,
      Interpreter.runTrace env pre = (outs, none, env') →
      Interpreter.exec_print env' f args = Except.error e →
      Interpreter.runTrace env (pre ++ Stmt.Print f args :: post) = (outs, some e, env')) := by
  refine ⟨?_, ?_, ?_, ?_⟩
  · intro code e h
    simp [mainRun, h]
  · intro code ts e h1 h2
    simp [mainRun, h1, h2]
  · intro code ts prog q outs e envF h1 h2 h3
    simp [mainRun, h1, h2, h3]
  · intro env pre post f args outs env' e h1 h2
    rw [runTrace_append_ok pre env (Stmt.Print f args :: post) outs env' h1]
    simp [Interpreter.runTrace, h2]

/-- Concrete instantiations of fail-fast propagation: the unterminated
string surfaces as a labelled lex error, the missing semicolon as a
labelled parse error, the unbound print argument as a labelled runtime
error, and a failing print after a successful prefix stops the run with
the prefix environment and no further output. -/
theorem pipeline_fail_fast_witness :
    mainRun srcLexErr = Except.error ("Lex error: " ++ lexErrMsg) ∧
    mainRun srcParseErr = Except.error ("Parse error: " ++ parseErrMsg) ∧
    mainRun srcRunErr = Except.error ("Runtime error: " ++ msgUndef missingStr) ∧
    Interpreter.runTrace [] ([Stmt.Let nameA valOne] ++ Stmt.Print fmtTwoMarkers [nameA] :: [Stmt.Print hiStr []])
      = ([], some msgMissing, envA) := by
  refine ⟨?_, ?_, ?_, ?_⟩
  · exact pipeline_fail_fast.1 srcLexErr lexErrMsg rfl
  · exact pipeline_fail_fast.2.1 srcParseErr tsParseErr parseErrMsg rfl rfl
  · exact pipeline_fail_fast.2.2.1 srcRunErr tsRunErr progRunErr
      (Parser.mk tsRunErr 7) [] (msgUndef missingStr) [] rfl rfl rfl
  · exact pipeline_fail_fast.2.2.2 [] [Stmt.Let nameA valOne] [Stmt.Print hiStr []]
      fmtTwoMarkers [nameA] [] envA msgMissing rfl rfl

/-- Claim C10: `exec_print` is atomic.  When a Print statement fails, the
trace of the run from that statement is exactly the error and no output at
all, and the environment is left exactly as it was (the modelled
`exec_print` takes the environment immutably, mirroring `&self` in the
code); when it succeeds, it contributes exactly one fully assembled
line. -/
theorem exec_print_atomicity :
    ∀ (env : Env) (f : String) (args : List String) (rest : List Stmt),
      (∀ e, Interpreter.exec_print env f args = Except.error e →
        Interpreter.runTrace env (Stmt.Print f args :: rest) = ([], some e, env)) ∧
      (∀ line, Interpreter.exec_print env f args = Except.ok line →
        Interpreter.runTrace env (Stmt.Print f args :: rest) =
          (line :: (Interpreter.runTrace env rest).1, (Interpreter.runTrace env rest).2)) := by
  intro env f args rest
  constructor
  · intro e h
    simp [Interpreter.runTrace, h]
  · intro line h
    simp [Interpreter.runTrace, h]

/-- Concrete instantiations of print atomicity: the failing marker-with-
no-binding print emits nothing and preserves the environment even though
text precedes the marker, and a succeeding print emits its one line. -/
theorem exec_print_atomicity_witness :
    Interpreter.runTrace envA (Stmt.Print fmtPrefixed [missingStr] :: [Stmt.Print hiStr []])
      = ([], some (msgUndef missingStr), envA) ∧
    Interpreter.runTrace envA (Stmt.Print hiStr [] :: [])
      = (hiStr :: (Interpreter.runTrace envA []).1, (Interpreter.runTrace envA []).2) := by
  constructor
  · exact (exec_print_atomicity envA fmtPrefixed [missingStr] [Stmt.Print hiStr []]).1
      (msgUndef missingStr) rfl
  · exact (exec_print_atomicity envA hiStr [] []).2 hiStr rfl

/-! ## Helper lemmas about the parser -/

lemma Parser.expect_ok (p : Parser) (t : Token) (q : Parser)
    (h : p.expect t = Except.ok q) : q = Parser.mk p.ts (p.i + 1) := by
  simp only [Parser.expect, Parser.bump] at h
  split at h
  · injection h with h
    exact h.symm
  · cases h

lemma Parser.parse_let_ts (p : Parser) (s : Stmt) (q : Parser)
    (h : p.parse_let = Except.ok (s, q)) : q.ts = p.ts := by
  unfold Parser.parse_let at h
  split at h
  · cases h
  case _ p1 heq1 =>
    split at h
    case _ nm p2 heq2 =>
      split at h
      · cases h
      case _ p3 heq3 =>
        split at h
        case _ v p4 heq4 =>
          split at h
          · cases h
          case _ p5 heq5 =>
            injection h with h
            injection h with _ h
            subst h
            have e1 := Parser.expect_ok p Token.Let p1 heq1
            have e3 := Parser.expect_ok p2 Token.Equal p3 heq3
            have e5 := Parser.expect_ok p4 Token.Semicolon p5 heq5
            simp only [Parser.bump] at heq2 heq4
            injection heq2 with _ heq2
            injection heq4 with _ heq4
            subst e1 e3 e5
            subst heq2
            subst heq4
            rfl
        case _ t h5 => cases h
    case _ t h2 => cases h

lemma Parser.print_args_ts : ∀ (fuel : Nat) (p : Parser) (acc r1 : List String) (q : Parser),
    Parser.print_args fuel p acc = Except.ok (r1, q) → q.ts = p.ts := by
  intro fuel
  induction fuel with
  | zero => intro p acc r1 q h; cases h
  | succ fuel ih =>
    intro p acc r1 q h
    unfold Parser.print_args at h
    split at h
    · split at h
      · cases h
      case _ p1 heq1 =>
        split at h
        case _ s p2 heq2 =>
          have e1 := Parser.expect_ok p Token.Comma p1 heq1
          simp only [Parser.bump] at heq2
          injection heq2 with _ heq2
          have hts := ih p2 (acc ++ [s]) r1 q h
          rw [hts, ← heq2]
          subst e1
          rfl
        case _ t heq2 => cases h
    · injection h with h
      injection h with _ h
      subst h
      rfl

lemma Parser.parse_print_ts (p : Parser) (s : Stmt) (q : Parser)
    (h : p.parse_print = Except.ok (s, q)) : q.ts = p.ts := by
  unfold Parser.parse_print at h
  split at h
  · cases h
  case _ p1 heq1 =>
    split at h
    · cases h
    case _ p2 heq2 =>
      split at h
      case _ f p3 heq3 =>
        split at h
        · cases h
        case _ args p4 heq4 =>
          split at h
          · cases h
          case _ p5 heq5 =>
            split at h
            · cases h
            case _ p6 heq6 =>
              injection h with h
              injection h with _ h
              subst h
              have e1 := Parser.expect_ok p Token.Print p1 heq1
              have e2 := Parser.expect_ok p1 Token.LParen p2 heq2
              simp only [Parser.bump] at heq3
              injection heq3 with _ heq3
              have e4 := Parser.print_args_ts (p3.ts.length + 1) p3 [] args p4 heq4
              have e5 := Parser.expect_ok p4 Token.RParen p5 heq5
              have e6 := Parser.expect_ok p5 Token.Semicolon p6 heq6
              subst e1 e2 e5 e6
              rw [← heq3] at e4
              simp at e4 ⊢
              rw [e4]
      case _ t heq3 => cases h

lemma Parser.parse_stmt_ts (p : Parser) (s : Stmt) (q : Parser)
    (h : p.parse_stmt = Except.ok (s, q)) : q.ts = p.ts := by
  unfold Parser.parse_stmt at h
  split at h
  · exact Parser.parse_let_ts p s q h
  · exact Parser.parse_print_ts p s q h
  · cases h

lemma Parser.peek_rbrace_mem (p : Parser) (h : p.peek = Token.RBrace) :
    Token.RBrace ∈ p.ts := by
  unfold Parser.peek at h
  rw [List.get?_eq_getElem?] at h
  cases hg : p.ts[p.i]? with
  | none => rw [hg] at h; simp at h
  | some t =>
    rw [hg] at h
    simp at h
    subst h
    exact List.get?_mem (by rw [List.get?_eq_getElem?]; exact hg)

lemma Parser.parseAux_stop : ∀ (fuel : Nat) (p : Parser) (acc : List Stmt) (prog : Program) (q : Parser),
    Token.RBrace ∉ p.ts → Parser.parseAux fuel p acc = Except.ok (prog, q) →
      q.peek = Token.Eof := by
  intro fuel
  induction fuel with
  | zero => intro p acc prog q _ h; cases h
  | succ fuel ih =>
    intro p acc prog q hmem h
    unfold Parser.parseAux at h
    split at h
    case _ hcond =>
      injection h with h
      injection h with h1 h2
      subst h2
      simp at hcond
      cases hcond with
      | inl hr => exact absurd (Parser.peek_rbrace_mem p hr) hmem
      | inr he => exact he
    case _ hcond =>
      split at h
      · cases h
      case _ s p1 heq =>
        have hts := Parser.parse_stmt_ts p s p1 heq
        exact ih p1 (acc ++ [s]) prog q (by rw [hts]; exact hmem) h

/-- Claim C2, counterexample: the lexer happily tokenizes a lone closing
brace, and on that token sequence the parser top-level loop stops at the
`RBrace`, not at `Eof`, succeeding with an empty program while leaving the
whole sequence unconsumed (the cursor is still at index 0). -/
theorem parse_rbrace_stop_counterexample :
    Lexer.tokenize srcRBrace = Except.ok [Token.RBrace, Token.Eof] ∧
    Parser.parse (Parser.mk [Token.RBrace, Token.Eof] 0)
      = Except.ok (Program.mk [], Parser.mk [Token.RBrace, Token.Eof] 0) ∧
    Parser.peek (Parser.mk [Token.RBrace, Token.Eof] 0) = Token.RBrace ∧
    Token.RBrace ≠ Token.Eof := by
  refine ⟨rfl, rfl, rfl, by decide⟩

/-- Claim C2 (amended: restricted to token sequences containing no
`RBrace`, since the lexer does produce `RBrace` for a `\x7d` in the source
and the top-level loop then stops on it).  For every token sequence
without `RBrace`, a successful parse stops only because the cursor reached
the terminating `Eof`: the final state peeks `Eof`, so no unparsed
statement tokens remain. -/
theorem parse_consumes_to_eof :
    ∀ (ts : List Token) (prog : Program) (q : Parser),
      Token.RBrace ∉ ts →
      Parser.parse (Parser.mk ts 0) = Except.ok (prog, q) →
      q.peek = Token.Eof := by
  intro ts prog q hmem h
  exact Parser.parseAux_stop (ts.length + 1) (Parser.mk ts 0) [] prog q hmem h

/-- Concrete instantiation: parsing the brace-free `let` token sequence
succeeds and the final cursor peeks `Eof`. -/
theorem parse_consumes_to_eof_witness :
    Parser.peek (Parser.mk tsC6 5) = Token.Eof := by
  exact parse_consumes_to_eof tsC6 (Program.mk [Stmt.Let xStr anb])
    (Parser.mk tsC6 5) (by decide) rfl

/-- Claim C4: running the full pipeline (lex, parse, interpret) on the
source `let name = "Bob"; print("Hello, \x7b\x7d!", name);` succeeds and
the interpreter emits exactly one line, `Hello, Bob!`. -/
theorem hello_bob_pipeline : mainRun srcC4 = Except.ok [outC4] := by
  rfl

/-- Claim C7: executing a `Let` statement always succeeds (it emits nothing
and errors never), afterwards the environment maps the name to exactly the
parsed value, a second `let` of the same name overwrites the first, and a
subsequent `print` of that name resolves to the latest value. -/
theorem let_binding_semantics :
    ∀ (env : Env) (n v v2 : String),
      Interpreter.runTrace env [Stmt.Let n v] = ([], none, envInsert n v env) ∧
      envGet (envInsert n v env) n = some v ∧
      envGet (envInsert n v2 (envInsert n v env)) n = some v2 ∧
      Interpreter.runTrace env [Stmt.Let n v, Stmt.Let n v2, Stmt.Print fmtMarker [n]]
        = ([v2], none, envInsert n v2 (envInsert n v env)) := by
  intro env n v v2
  refine ⟨rfl, ?_, ?_, ?_⟩
  · simp [envGet, envInsert]
  · simp [envGet, envInsert]
  · simp only [Interpreter.runTrace]
    rw [show Interpreter.exec_print (envInsert n v2 (envInsert n v env)) fmtMarker [n]
          = Except.ok v2 from by
      simp [Interpreter.exec_print, fmtMarker, Interpreter.exec_printAux, envGet, envInsert]]

/-- Claim C9: `Parser::peek` yields `Eof` whenever the cursor is at or past
the end of the token vector, `bump` at such a cursor reads no token (it
yields the `Eof` default) and just advances the index, and every further
bump keeps yielding `Eof`; parsing therefore never reads out of bounds,
even on token sequences that lack a trailing `Eof`. -/
theorem peek_bump_past_end :
    ∀ (ts : List Token) (i : Nat), ts.length ≤ i →
      Parser.peek (Parser.mk ts i) = Token.Eof ∧
      Parser.bump (Parser.mk ts i) = (Token.Eof, Parser.mk ts (i + 1)) ∧
      ∀ k, Parser.peek (Parser.mk ts (i + k)) = Token.Eof := by
  intro ts i hle
  have hp : ∀ j, ts.length ≤ j → Parser.peek (Parser.mk ts j) = Token.Eof := by
    intro j hj
    unfold Parser.peek
    rw [List.get?_eq_none.mpr hj]
    rfl
  refine ⟨hp i hle, ?_, fun k => hp (i + k) (by omega)⟩
  unfold Parser.bump
  rw [hp i hle]

/-- Concrete instantiation: past the end of a one-token vector, peek and
repeated bumps keep yielding `Eof`. -/
theorem peek_bump_past_end_witness :
    Parser.peek (Parser.mk [Token.RBrace] 1) = Token.Eof ∧
    Parser.bump (Parser.mk [Token.RBrace] 1) = (Token.Eof, Parser.mk [Token.RBrace] 2) ∧
    ∀ k, Parser.peek (Parser.mk [Token.RBrace] (1 + k)) = Token.Eof := by
  exact peek_bump_past_end [Token.RBrace] 1 (by decide)

/-! ## Helper lemmas about the lexer -/

lemma Lexer.next_token_eof (cs : List Char) (pos : Nat) (r : List Char) (q : Nat)
    (h : Lexer.next_token cs pos = Except.ok (Token.Eof, r, q)) :
    (Lexer.skip_ws cs pos).1 = [] ∧ r = [] := by
  unfold Lexer.next_token at h
  split at h
  case _ pos1 heq =>
    simp only [Except.ok.injEq, Prod.mk.injEq] at h
    exact ⟨by rw [heq], h.2.1.symm⟩
  case _ c rest pos1 heq =>
    exfalso
    split at h
    any_goals (simp at h)
    case _ =>
      split at h <;> simp at h
    case _ =>
      split at h
      · simp only [Except.ok.injEq, Prod.mk.injEq] at h
        have hif := h.1
        split at hif
        · simp at hif
        · split at hif <;> simp at hif
      · simp at h

lemma Lexer.tokenizeAux_eof_structure :
    ∀ (fuel : Nat) (cs : List Char) (pos : Nat) (acc ts : List Token),
      Token.Eof ∉ acc → Lexer.tokenizeAux fuel cs pos acc = Except.ok ts →
      ∃ ts1, ts = ts1 ++ [Token.Eof] ∧ Token.Eof ∉ ts1 := by
  intro fuel
  induction fuel with
  | zero => intro cs pos acc ts _ h; cases h
  | succ fuel ih =>
    intro cs pos acc ts hacc h
    unfold Lexer.tokenizeAux at h
    split at h
    · cases h
    case _ t cs1 pos1 heq =>
      split at h
      case _ hbeq =>
        injection h with h
        subst h
        have ht : t = Token.Eof := by simpa using hbeq
        exact ⟨acc, by rw [ht], hacc⟩
      case _ hbeq =>
        have ht : t ≠ Token.Eof := by simpa using hbeq
        refine ih cs1 pos1 (acc ++ [t]) ts ?_ h
        simp [hacc]
        exact fun he => ht he.symm

/-- Claim C5: every successful `tokenize` produces a sequence whose last
element is its only `Eof`: the sequence splits as marker-free tokens
followed by one final `Eof`, so the `Eof` count is one and tokenization
stopped immediately after emitting it; moreover `next_token` returns `Eof`
exactly on an exhausted cursor: whenever it yields `Eof`, the input after
whitespace-skipping was empty. -/
theorem tokenize_eof_terminated :
    (∀ s ts, Lexer.tokenize s = Except.ok ts →
      ∃ ts1, ts = ts1 ++ [Token.Eof] ∧ Token.Eof ∉ ts1 ∧
        ts.count Token.Eof = 1 ∧ ts.getLast? = some Token.Eof) ∧
    (∀ cs pos r q, Lexer.next_token cs pos = Except.ok (Token.Eof, r, q) →
      (Lexer.skip_ws cs pos).1 = [] ∧ r = []) := by
  constructor
  · intro s ts h
    obtain ⟨ts1, hts, hmem⟩ :=
      Lexer.tokenizeAux_eof_structure (s.length + 1) s.data 0 [] ts (by simp) h
    refine ⟨ts1, hts, hmem, ?_, ?_⟩
    · rw [hts]
      simp [List.count_append, List.count_eq_zero.mpr hmem]
    · rw [hts]
      exact List.getLast?_concat ts1
  · exact Lexer.next_token_eof

/-- Concrete instantiation: the zero-argument print example tokenizes to a
sequence ending in its unique `Eof`, and `next_token` on exhausted input
yields `Eof`. -/
theorem tokenize_eof_terminated_witness :
    (∃ ts1, tsC8 = ts1 ++ [Token.Eof] ∧ Token.Eof ∉ ts1 ∧
      tsC8.count Token.Eof = 1 ∧ tsC8.getLast? = some Token.Eof) ∧
    (Lexer.skip_ws [] 0).1 = [] := by
  constructor
  · exact tokenize_eof_terminated.1 srcC8 tsC8 rfl
  · exact (tokenize_eof_terminated.2 [] 0 [] 0 rfl).1

/-- Claim C6: string-literal lexing copies characters verbatim up to the
closing quote, resolves exactly the four escapes `\n`, `\t`, `\"`, `\\`,
rejects any other escape, and rejects end of input before the closing
quote; concretely, `let x = "a\nb";` tokenizes to
`[Let, Ident x, Equal, Str anb, Semicolon, Eof]` where the literal `anb`
holds an actual newline character. -/
theorem string_literal_lexing :
    Lexer.tokenize srcC6 = Except.ok tsC6 ∧
    anb.data = ['a', '\n', 'b'] ∧
    (∀ cs pos out, Lexer.string ('\\' :: 'n' :: cs) pos out
      = Lexer.string cs (pos + 2) (out.push '\n')) ∧
    (∀ cs pos out, Lexer.string ('\\' :: 't' :: cs) pos out
      = Lexer.string cs (pos + 2) (out.push '\t')) ∧
    (∀ cs pos out, Lexer.string ('\\' :: '"' :: cs) pos out
      = Lexer.string cs (pos + 2) (out.push '"')) ∧
    (∀ cs pos out, Lexer.string ('\\' :: '\\' :: cs) pos out
      = Lexer.string cs (pos + 2) (out.push '\\')) ∧
    (∀ esc cs pos out, esc ≠ 'n' → esc ≠ 't' → esc ≠ '"' → esc ≠ '\\' →
      Lexer.string ('\\' :: esc :: cs) pos out
        = Except.error ("Unsupported escape: \\" ++ String.singleton esc)) ∧
    (∀ c cs pos out, c ≠ '"' → c ≠ '\\' →
      Lexer.string (c :: cs) pos out = Lexer.string cs (pos + 1) (out.push c)) ∧
    (∀ cs pos out, Lexer.string ('"' :: cs) pos out = Except.ok (out, cs, pos + 1)) ∧
    (∀ pos out, Lexer.string [] pos out = Except.error lexErrMsg) ∧
    (∀ pos out, Lexer.string ['\\'] pos out = Except.error escErrMsg) := by
  refine ⟨rfl, rfl, fun cs pos out => rfl, fun cs pos out => rfl, fun cs pos out => rfl,
    fun cs pos out => rfl, ?_, ?_, fun cs pos out => rfl, fun pos out => rfl,
    fun pos out => rfl⟩
  · intro esc cs pos out h1 h2 h3 h4
    simp [Lexer.string, h1, h2, h3, h4]
  · intro c cs pos out h1 h2
    simp [Lexer.string, h1, h2]

/-- Concrete instantiations of the string-lexing error conditions: the
escape `\x` is rejected, and a verbatim character is copied. -/
theorem string_literal_lexing_witness :
    Lexer.string ('\\' :: 'x' :: []) 0 emptyStr
      = Except.error ("Unsupported escape: \\" ++ String.singleton 'x') ∧
    Lexer.string ('a' :: []) 0 emptyStr = Lexer.string [] 1 (emptyStr.push 'a') := by
  constructor
  · exact string_literal_lexing.2.2.2.2.2.2.1 'x' [] 0 emptyStr
      (by decide) (by decide) (by decide) (by decide)
  · exact string_literal_lexing.2.2.2.2.2.2.2.1 'a' [] 0 emptyStr (by decide) (by decide)

lemma argToks_length (as : List String) : (argToks as).length = 2 * as.length := by
  induction as with
  | nil => rfl
  | cons a as ih => simp [argToks, ih]; omega

lemma drop_shift {α : Type} (ts : List α) (i : Nat) (x : α) (l : List α)
    (h : ts.drop i = x :: l) : ts.drop (i + 1) = l := by
  rw [← List.drop_drop 1 i ts, h]
  rfl

lemma Parser.peek_of_drop (ts : List Token) (i : Nat) (x : Token) (l : List Token)
    (h : ts.drop i = x :: l) : Parser.peek (Parser.mk ts i) = x := by
  unfold Parser.peek
  rw [List.get?_eq_getElem?, ← List.head?_drop, h]
  rfl

lemma Parser.expect_of_peek (p : Parser) (t : Token) (h : p.peek = t) :
    p.expect t = Except.ok (Parser.mk p.ts (p.i + 1)) := by
  simp [Parser.expect, Parser.bump, h]

lemma Parser.print_args_spec :
    ∀ (as : List String) (fuel : Nat) (ts : List Token) (i : Nat) (acc : List String)
      (rest : List Token),
      as.length < fuel →
      ts.drop i = argToks as ++ rest →
      rest.head? ≠ some Token.Comma →
      Parser.print_args fuel (Parser.mk ts i) acc
        = Except.ok (acc ++ as, Parser.mk ts (i + 2 * as.length)) := by
  intro as
  induction as with
  | nil =>
    intro fuel ts i acc rest hfuel hdrop hrest
    simp only [argToks, List.nil_append] at hdrop
    cases fuel with
    | zero => omega
    | succ fuel =>
      have hpeek : Parser.peek (Parser.mk ts i) ≠ Token.Comma := by
        cases rest with
        | nil =>
          have : Parser.peek (Parser.mk ts i) = Token.Eof := by
            unfold Parser.peek
            rw [List.get?_eq_getElem?, ← List.head?_drop, hdrop]
            rfl
          rw [this]
          decide
        | cons t r =>
          rw [Parser.peek_of_drop ts i t r hdrop]
          intro he
          exact hrest (by rw [he]; rfl)
      unfold Parser.print_args
      rw [if_neg (by simpa using hpeek)]
      simp
  | cons a as ih =>
    intro fuel ts i acc rest hfuel hdrop hrest
    simp only [argToks, List.cons_append] at hdrop
    cases fuel with
    | zero => simp at hfuel
    | succ fuel =>
      have h1 : Parser.peek (Parser.mk ts i) = Token.Comma :=
        Parser.peek_of_drop ts i Token.Comma _ hdrop
      have hd1 : ts.drop (i + 1) = Token.Ident a :: (argToks as ++ rest) :=
        drop_shift ts i Token.Comma _ hdrop
      have h2 : Parser.peek (Parser.mk ts (i + 1)) = Token.Ident a :=
        Parser.peek_of_drop ts (i + 1) (Token.Ident a) _ hd1
      have hd2 : ts.drop (i + 1 + 1) = argToks as ++ rest :=
        drop_shift ts (i + 1) (Token.Ident a) _ hd1
      unfold Parser.print_args
      rw [if_pos (by simp [h1])]
      rw [Parser.expect_of_peek (Parser.mk ts i) Token.Comma h1]
      simp only [Parser.bump, h2]
      rw [ih fuel ts (i + 1 + 1) (acc ++ [a]) rest (by simpa using hfuel) hd2 hrest]
      simp
      omega

lemma Parser.parse_print_spec (full : List Token) (f : String) (as : List String) (rest : List Token)
    (h0 : full = Token.Print :: Token.LParen :: Token.Str f ::
      (argToks as ++ Token.RParen :: Token.Semicolon :: rest)) :
    Parser.parse_print (Parser.mk full 0)
      = Except.ok (Stmt.Print f as, Parser.mk full (5 + 2 * as.length)) := by
  have d0 : full.drop 0 = Token.Print :: (Token.LParen :: Token.Str f ::
      (argToks as ++ Token.RParen :: Token.Semicolon :: rest)) := by simpa using h0
  have d1 := drop_shift full 0 _ _ d0
  have d2 := drop_shift full (0 + 1) _ _ d1
  have d3 := drop_shift full (0 + 1 + 1) _ _ d2
  simp only [Nat.reduceAdd] at d1 d2 d3
  have p0 : Parser.peek (Parser.mk full 0) = Token.Print := Parser.peek_of_drop full 0 _ _ d0
  have p1 : Parser.peek (Parser.mk full 1) = Token.LParen := Parser.peek_of_drop full 1 _ _ d1
  have p2 : Parser.peek (Parser.mk full 2) = Token.Str f := Parser.peek_of_drop full 2 _ _ d2
  have e0 := Parser.expect_of_peek (Parser.mk full 0) Token.Print p0
  have e1 := Parser.expect_of_peek (Parser.mk full 1) Token.LParen p1
  simp only [Nat.reduceAdd] at e0 e1
  have hb2 : Parser.bump (Parser.mk full 2) = (Token.Str f, Parser.mk full 3) := by
    simp [Parser.bump, p2]
  have hfuel : as.length < full.length + 1 := by
    subst h0
    simp [argToks_length]
    omega
  have hargs : Parser.print_args (full.length + 1) (Parser.mk full 3) []
      = Except.ok ([] ++ as, Parser.mk full (3 + 2 * as.length)) :=
    Parser.print_args_spec as (full.length + 1) full 3 []
      (Token.RParen :: Token.Semicolon :: rest) hfuel d3 (by simp)
  have dR : full.drop (3 + 2 * as.length) = Token.RParen :: (Token.Semicolon :: rest) := by
    rw [← List.drop_drop, d3, show 2 * as.length = (argToks as).length from (argToks_length as).symm]
    exact List.drop_left _ _
  have pR : Parser.peek (Parser.mk full (3 + 2 * as.length)) = Token.RParen :=
    Parser.peek_of_drop full (3 + 2 * as.length) _ _ dR
  have eR := Parser.expect_of_peek (Parser.mk full (3 + 2 * as.length)) Token.RParen pR
  have dS := drop_shift full (3 + 2 * as.length) _ _ dR
  have pS : Parser.peek (Parser.mk full (3 + 2 * as.length + 1)) = Token.Semicolon :=
    Parser.peek_of_drop full (3 + 2 * as.length + 1) _ _ dS
  have eS := Parser.expect_of_peek (Parser.mk full (3 + 2 * as.length + 1)) Token.Semicolon pS
  simp only [Parser.parse_print, e0, e1, hb2, hargs, eR, eS, List.nil_append]
  rw [show (3 + 2 * as.length + 1 + 1) = 5 + 2 * as.length from by omega]

/-- Claim C8: `parse_print` consumes `print`, requires `(`, requires a
string-literal format, collects zero or more comma-prefixed identifiers in
appearance order, then requires `)` and `;`, producing `Print` with that
format and argument list; a non-`(` after `print` or a non-string format
is a parse error; concretely, `print("hi");` parses to a one-statement
program whose statement is `Print` with format `hi` and no arguments, and
running it emits the single line `hi`. -/
theorem parse_print_shape :
    (∀ (f : String) (as : List String) (rest : List Token),
      Parser.parse_print (Parser.mk (Token.Print :: Token.LParen :: Token.Str f ::
          (argToks as ++ Token.RParen :: Token.Semicolon :: rest)) 0)
        = Except.ok (Stmt.Print f as,
            Parser.mk (Token.Print :: Token.LParen :: Token.Str f ::
              (argToks as ++ Token.RParen :: Token.Semicolon :: rest))
              (5 + 2 * as.length))) ∧
    (∀ (t : Token) (rest : List Token), t ≠ Token.LParen →
      ∃ e, Parser.parse_print (Parser.mk (Token.Print :: t :: rest) 0)
        = Except.error e) ∧
    (∀ (t : Token) (rest : List Token), (∀ s0, t ≠ Token.Str s0) →
      ∃ e, Parser.parse_print (Parser.mk (Token.Print :: Token.LParen :: t :: rest) 0)
        = Except.error e) ∧
    Lexer.tokenize srcC8 = Except.ok tsC8 ∧
    Parser.parse (Parser.mk tsC8 0)
      = Except.ok (Program.mk [Stmt.Print hiStr []], Parser.mk tsC8 5) ∧
    mainRun srcC8 = Except.ok [hiStr] := by
  refine ⟨?_, ?_, ?_, rfl, rfl, rfl⟩
  · intro f as rest
    exact Parser.parse_print_spec _ f as rest rfl
  · intro t rest ht
    have hb : (t == Token.LParen) = false := by simpa using ht
    refine ⟨"Expected " ++ debugToken Token.LParen ++ ", found " ++ debugToken t, ?_⟩
    simp [Parser.parse_print, Parser.expect, Parser.bump, Parser.peek, hb]
  · intro t rest ht
    cases t <;>
      first
        | (exact absurd rfl (ht _))
        | simp [Parser.parse_print, Parser.expect, Parser.bump, Parser.peek]

/-- Concrete instantiations of the parse-print error requirements: a
semicolon instead of `(` after `print` is rejected, and a comma instead of
a string-literal format is rejected. -/
theorem parse_print_shape_witness :
    (∃ e, Parser.parse_print (Parser.mk (Token.Print :: Token.Semicolon :: []) 0)
      = Except.error e) ∧
    (∃ e, Parser.parse_print
        (Parser.mk (Token.Print :: Token.LParen :: Token.Comma :: []) 0)
      = Except.error e) := by
  constructor
  · exact parse_print_shape.2.1 Token.Semicolon [] (by decide)
  · exact parse_print_shape.2.2.1 Token.Comma [] (fun s0 h => Token.noConfusion h)
